import Mathlib

/-!
Verification of the WARC record builder of `wpull/warc.py` (class `WARCRecord`).

The embedding below translates the source into Lean:

* SHA-1 and Base32 mirror the Python `hashlib.sha1` and `base64.b32encode`
  (RFC 3174 / RFC 4648), operating on byte lists (`List Nat`, bytes < 256).
* `NameValueRecord` models the external field container `wpull.namevalue`
  (not part of the sources): an insertion-ordered name/value list with
  case-insensitive name normalization and a canonical-casing override set.
* `MFile` models a seekable binary file object (Python `io`): a byte list
  plus a read cursor.  `MFile.read` follows `io.BytesIO.read`: a negative
  size reads to EOF, a non-negative size reads at most that many bytes.
* `reset_file_offset` models `wpull.util.reset_file_offset` (not part of
  the sources): save the cursor, run the body, seek back to the saved
  cursor on every exit path.
* `WARCRecord` with `set_content_length`, `compute_checksum` and `iter`
  (Python `__iter__`) are direct translations of `wpull/warc.py`.
  Incremental SHA-1 hasher objects are represented by the list of bytes
  fed to them so far; `hasher.digest()` becomes `sha1` of that list.
-/

/-- Constant 2 ^ 32, the word modulus of SHA-1. -/
def M32 : Nat := 4294967296

/-- Rotate the 32-bit word `w` left by `n` bits. -/
def rotl (n w : Nat) : Nat := ((w <<< n) % M32) ||| (w >>> (32 - n))

/-- Big-endian byte serialization of `x` into exactly `n` bytes. -/
def toBytesBE : Nat → Nat → List Nat
  | 0, _ => []
  | n + 1, x => toBytesBE n (x / 256) ++ [x % 256]

/-- Big-endian word value of a byte list. -/
def wordBE (bs : List Nat) : Nat := bs.foldl (fun a b => a * 256 + b) 0

/-- Worker for `chunksOf`: `acc` is the chunk being filled, `cap` its
remaining capacity. -/
def chunksGo (size : Nat) (acc : List α) (cap : Nat) : List α → List (List α)
  | [] => if acc.isEmpty then [] else [acc]
  | x :: xs =>
    if cap ≤ 1 then (acc ++ [x]) :: chunksGo size [] size xs
    else chunksGo size (acc ++ [x]) (cap - 1) xs

/-- Split a list into consecutive chunks of size `size` (the last chunk
may be shorter). -/
def chunksOf (size : Nat) (l : List α) : List (List α) :=
  chunksGo size [] size l

/-- SHA-1 message padding: append `0x80`, zero bytes up to 56 mod 64, then
the bit length as 8 big-endian bytes. -/
def sha1pad (msg : List Nat) : List Nat :=
  msg ++ [128] ++ List.replicate ((119 - msg.length % 64) % 64) 0 ++
    toBytesBE 8 (msg.length * 8)

/-- One step of the SHA-1 message-schedule extension: append word `i` from
words `i - 3`, `i - 8`, `i - 14`, `i - 16`. -/
def extendStep (acc : List Nat) : List Nat :=
  let i := acc.length
  acc ++ [rotl 1 ((acc.getD (i - 3) 0) ^^^ (acc.getD (i - 8) 0) ^^^
    (acc.getD (i - 14) 0) ^^^ (acc.getD (i - 16) 0))]

/-- Extend the 16 chunk words to the 80 SHA-1 schedule words. -/
def extendWords (ws : List Nat) : List Nat :=
  (List.range 64).foldl (fun acc _ => extendStep acc) ws

/-- One of the 80 SHA-1 rounds: state `(a, b, c, d, e)`, round index and
schedule word `(i, w)`. -/
def sha1Round (st : Nat × Nat × Nat × Nat × Nat) (iw : Nat × Nat) :
    Nat × Nat × Nat × Nat × Nat :=
  let (a, b, c, d, e) := st
  let (i, w) := iw
  let f :=
    if i < 20 then (b &&& c) ||| ((b ^^^ 4294967295) &&& d)
    else if i < 40 then b ^^^ c ^^^ d
    else if i < 60 then (b &&& c) ||| (b &&& d) ||| (c &&& d)
    else b ^^^ c ^^^ d
  let k :=
    if i < 20 then 1518500249
    else if i < 40 then 1859775393
    else if i < 60 then 2400959708
    else 3395469782
  let temp := (rotl 5 a + f + e + k + w) % M32
  (temp, a, rotl 30 b, c, d)

/-- Process one padded 64-byte SHA-1 chunk, updating the running state. -/
def processChunk (hs : Nat × Nat × Nat × Nat × Nat) (chunk : List Nat) :
    Nat × Nat × Nat × Nat × Nat :=
  let ws := extendWords ((chunksOf 4 chunk).map wordBE)
  let st := ws.enum.foldl sha1Round hs
  ((hs.1 + st.1) % M32, (hs.2.1 + st.2.1) % M32, (hs.2.2.1 + st.2.2.1) % M32,
    (hs.2.2.2.1 + st.2.2.2.1) % M32, (hs.2.2.2.2 + st.2.2.2.2) % M32)

/-- SHA-1 digest of a byte list, as the raw 20-byte digest
(Python `hashlib.sha1(msg).digest()`). -/
def sha1 (msg : List Nat) : List Nat :=
  let hs := (chunksOf 64 (sha1pad msg)).foldl processChunk
    (1732584193, 4023233417, 2562383102, 271733878, 3285377520)
  toBytesBE 4 hs.1 ++ toBytesBE 4 hs.2.1 ++ toBytesBE 4 hs.2.2.1 ++
    toBytesBE 4 hs.2.2.2.1 ++ toBytesBE 4 hs.2.2.2.2

/-- The RFC 4648 Base32 alphabet. -/
def B32_ALPHABET : List Char := "ABCDEFGHIJKLMNOPQRSTUVWXYZ234567".toList

/-- Encode one input group of 1 to 5 bytes as 8 output characters,
padding with `=` as RFC 4648 requires for a ragged final group. -/
def b32chars (g : List Nat) : List Char :=
  let n := (g ++ List.replicate (5 - g.length) 0).foldl (fun a b => a * 256 + b) 0
  let keep := match g.length with
    | 1 => 2 | 2 => 4 | 3 => 5 | 4 => 7 | _ => 8
  ((List.range 8).map (fun i => B32_ALPHABET.getD ((n >>> (35 - 5 * i)) % 32) 'A')).take keep
    ++ List.replicate (8 - keep) '='

/-- RFC 4648 Base32 encoding rendered as a string
(Python `base64.b32encode(bs).decode()`). -/
def b32encode (bs : List Nat) : String :=
  String.mk ((chunksOf 5 bs).map b32chars).flatten

/-- ASCII bytes of a string (`str.encode()` for the ASCII strings used
by the record serializer). -/
def strBytes (s : String) : List Nat := s.toList.map Char.toNat

/-- Lowercase a string character-wise. -/
def lowerStr (s : String) : String := String.mk (s.toList.map Char.toLower)

/-- Capitalize one hyphen-separated word: first character uppercase, the
rest lowercase. -/
def titleWord (s : String) : String :=
  match s.toList with
  | [] => ""
  | c :: cs => String.mk (c.toUpper :: cs.map Char.toLower)

/-- Default field-name normalization: title-case every hyphen-separated
word. -/
def titleCase (s : String) : String :=
  String.intercalate "-" ((s.splitOn "-").map titleWord)

/-- Constant `WARCRecord.NAME_OVERRIDES`: field names that must always render with
this exact capitalization. -/
def NAME_OVERRIDES : List String :=
  ["WARC-Date", "WARC-Type", "WARC-Record-ID", "WARC-Concurrent-To",
   "WARC-Refers-To", "Content-Length", "Content-Type", "WARC-Target-URI",
   "WARC-Block-Digest", "WARC-IP-Address", "WARC-Filename",
   "WARC-Warcinfo-ID", "WARC-Payload-Digest"]

/-- Modelled from the spec: the field-name normalization of the external
`wpull.namevalue` container (not among the sources).  Names compare
case-insensitively; a name matching an entry of the override set renders
with the canonical casing of the override, any other name is title-cased. -/
def normalizeName (name : String) : String :=
  match NAME_OVERRIDES.find? (fun o => lowerStr o == lowerStr name) with
  | some o => o
  | none => titleCase name

/-- Modelled from the spec: the external `wpull.namevalue.NameValueRecord`
container (not among the sources) — a mapping from field name to field
value with insertion order preserved for serialization.  Stored keys are
normalized by `normalizeName`. -/
structure NameValueRecord where
  pairs : List (String × String)
deriving Repr, DecidableEq

/-- Modelled from the spec: mapping update (`record.fields[name] = value`).
Every field write is a direct overwrite of the normalized key; a new key
is appended, preserving insertion order. -/
def NameValueRecord.set (r : NameValueRecord) (name value : String) :
    NameValueRecord :=
  let n := normalizeName name
  if r.pairs.any (fun p => p.1 == n) then
    ⟨r.pairs.map (fun p => if p.1 == n then (n, value) else p)⟩
  else
    ⟨r.pairs ++ [(n, value)]⟩

/-- Modelled from the spec: mapping lookup (`record.fields[name]`), by
normalized name. -/
def NameValueRecord.get? (r : NameValueRecord) (name : String) : Option String :=
  (r.pairs.find? (fun p => p.1 == normalizeName name)).map (fun p => p.2)

/-- Modelled from the spec: membership test (`name in record.fields`). -/
def NameValueRecord.contains (r : NameValueRecord) (name : String) : Bool :=
  r.pairs.any (fun p => p.1 == normalizeName name)

/-- Modelled from the spec: serialization of the field block
(`bytes(record.fields)`): one `Name: Value` line per field, in insertion
order, each terminated by CRLF. -/
def NameValueRecord.serialize (r : NameValueRecord) : List Nat :=
  (r.pairs.map (fun p => strBytes (p.1 ++ ": " ++ p.2 ++ "\r\n"))).flatten

/-- A seekable binary file object (Python `io`): contents plus read
cursor. -/
structure MFile where
  contents : List Nat
  pos : Nat
deriving Repr, DecidableEq

/-- Python `file.read(n)`: read at most `n` bytes from the cursor and advance it;
a negative `n` reads to EOF (`io.BytesIO.read` semantics). -/
def MFile.read (f : MFile) (n : Int) : List Nat × MFile :=
  let data := if n < 0 then f.contents.drop f.pos
    else (f.contents.drop f.pos).take n.toNat
  (data, ⟨f.contents, f.pos + data.length⟩)

/-- Python `file.tell()`: the current cursor position. -/
def MFile.tell (f : MFile) : Nat := f.pos

/-- Python `file.seek(n)`: set the cursor to the absolute position `n`. -/
def MFile.seek (f : MFile) (n : Nat) : MFile := ⟨f.contents, n⟩

/-- Python `file.seek(0, 2)`: set the cursor to the end of the file. -/
def MFile.seekEnd (f : MFile) : MFile := ⟨f.contents, f.contents.length⟩

/-- Modelled from the spec: `wpull.util.reset_file_offset` (not among the
sources) — save the cursor, run the body over the file, then seek back to
the saved cursor. -/
def reset_file_offset (f : MFile) (body : MFile → α × MFile) : α × MFile :=
  let offset := f.tell
  let (a, f') := body f
  (a, f'.seek offset)

/-- Modelled from the spec: `wpull.util.reset_file_offset` for a body that
may fail mid-read.  The cursor is seeked back to the saved position on
every exit path, the error path included (the `finally` of the scoped
construct). -/
def reset_file_offset_exc (f : MFile)
    (body : MFile → Except (ε × MFile) (α × MFile)) :
    Except (ε × MFile) (α × MFile) :=
  let offset := f.tell
  match body f with
  | Except.ok (a, f') => Except.ok (a, f'.seek offset)
  | Except.error (e, f') => Except.error (e, f'.seek offset)

/-- The file state at either exit of a fallible file computation. -/
def exitFile : Except (String × MFile) (List Nat × MFile) → MFile
  | Except.ok (_, f) => f
  | Except.error (_, f) => f

/-- The checksum loop of `WARCRecord.compute_checksum`: read 4096-byte
chunks until EOF, feeding each chunk to both running hashers (hashers are
represented by the bytes accumulated so far). -/
def hashLoop (blockAcc payAcc : List Nat) (f : MFile) :
    List Nat × List Nat × MFile :=
  match hr : f.read 4096 with
  | ([], f') => (blockAcc, payAcc, f')
  | (d :: ds, f') => hashLoop (blockAcc ++ d :: ds) (payAcc ++ d :: ds) f'
termination_by f.contents.length - f.pos
decreasing_by
  simp only [MFile.read, show ¬((4096 : Int) < 0) from (by decide), if_neg,
    Prod.mk.injEq, not_false_eq_true, if_false] at hr
  obtain ⟨hd, hf⟩ := hr
  have hlen : (d :: ds).length = min 4096 (f.contents.length - f.pos) := by
    rw [← hd]
    simp [List.length_take, List.length_drop]
  have hne : f.pos < f.contents.length := by
    by_contra hcon
    have hnil : f.contents.drop f.pos = [] := List.drop_eq_nil_of_le (by omega)
    rw [hnil] at hd
    simp at hd
  rw [← hf, hd]
  simp only [List.length_cons] at *
  omega

/-- The serialization loop of `WARCRecord.__iter__`: yield 4096-byte
chunks until EOF. -/
def readChunksLoop (f : MFile) : List (List Nat) × MFile :=
  match hr : f.read 4096 with
  | ([], f') => ([], f')
  | (d :: ds, f') =>
    let rest := readChunksLoop f'
    ((d :: ds) :: rest.1, rest.2)
termination_by f.contents.length - f.pos
decreasing_by
  simp only [MFile.read, show ¬((4096 : Int) < 0) from (by decide), if_neg,
    Prod.mk.injEq, not_false_eq_true, if_false] at hr
  obtain ⟨hd, hf⟩ := hr
  have hlen : (d :: ds).length = min 4096 (f.contents.length - f.pos) := by
    rw [← hd]
    simp [List.length_take, List.length_drop]
  have hne : f.pos < f.contents.length := by
    by_contra hcon
    have hnil : f.contents.drop f.pos = [] := List.drop_eq_nil_of_le (by omega)
    rw [hnil] at hd
    simp at hd
  rw [← hf, hd]
  simp only [List.length_cons] at *
  omega

/-- The record of `wpull/warc.py`: header fields plus an optional binary
block. -/
structure WARCRecord where
  fields : NameValueRecord
  block_file : Option MFile
deriving Repr, DecidableEq

/-- Constant `WARCRecord.VERSION`, the protocol version line. -/
def VERSION : String := "WARC/1.0"

/-- Method `WARCRecord.set_content_length`: seek the block to its end to measure
the total length, store it as the decimal `Content-Length`, and restore
the cursor.  With no block attached, store `"0"`. -/
def WARCRecord.set_content_length (r : WARCRecord) : WARCRecord :=
  match r.block_file with
  | none => { r with fields := r.fields.set "Content-Length" "0" }
  | some bf =>
    let lenf := reset_file_offset bf (fun f =>
      let f := f.seekEnd
      (f.tell, f))
    { fields := r.fields.set "Content-Length" (toString lenf.1),
      block_file := some lenf.2 }

/-- Method `WARCRecord.compute_checksum`: with no block attached, store
`Content-Length "0"` and return.  Otherwise, inside the scoped cursor
save/restore: when a payload offset is given, `read(payload_offset)` and
feed the bytes to the block hasher only; then read 4096-byte chunks to
EOF, feeding each chunk to both hashers; take `tell()` as the content
length.  Store `WARC-Block-Digest`, then `WARC-Payload-Digest` (only when
a payload offset was supplied), then `Content-Length`. -/
def WARCRecord.compute_checksum (r : WARCRecord) (payload_offset : Option Int) :
    WARCRecord :=
  match r.block_file with
  | none => { r with fields := r.fields.set "Content-Length" "0" }
  | some bf =>
    let res := reset_file_offset bf (fun f =>
      let step :=
        match payload_offset with
        | some off => f.read off
        | none => ([], f)
      let acc := hashLoop step.1 [] step.2
      ((acc.1, acc.2.1, acc.2.2.tell), acc.2.2))
    let blockData := res.1.1
    let payloadData := res.1.2.1
    let content_length := res.1.2.2
    let content_hash := sha1 blockData
    let fields1 := r.fields.set "WARC-Block-Digest"
      ("sha1:" ++ b32encode content_hash)
    let fields2 :=
      match payload_offset with
      | some _ =>
        let payload_hash := sha1 payloadData
        fields1.set "WARC-Payload-Digest" ("sha1:" ++ b32encode payload_hash)
      | none => fields1
    let fields3 := fields2.set "Content-Length" (toString content_length)
    { fields := fields3, block_file := some res.2 }

/-- Method `WARCRecord.__iter__`: yield the version line, CRLF, the serialized
fields, CRLF, the block in 4096-byte chunks under scoped cursor
save/restore, and a final CRLF CRLF.  With no block attached, the scoped
construct is entered on `None` and raises (`None.tell()` has no meaning),
modelled as an error result. -/
def WARCRecord.iter (r : WARCRecord) :
    Except String (List (List Nat) × WARCRecord) :=
  match r.block_file with
  | none =>
    Except.error "AttributeError: NoneType object has no attribute tell"
  | some bf =>
    let res := reset_file_offset bf readChunksLoop
    Except.ok
      ([strBytes VERSION, strBytes "\r\n", r.fields.serialize, strBytes "\r\n"]
          ++ res.1 ++ [strBytes ("\r\n" ++ "\r\n")],
        { r with block_file := some res.2 })

/-- The field mapping produced by `compute_checksum` on a record with an
attached block of contents `c` and cursor `pos` (derived normal form used
by the lemmas below). -/
def checksumFields (flds : NameValueRecord) (c : List Nat) (pos : Nat)
    (po : Option Int) : NameValueRecord :=
  let rest := c.drop pos
  let d0 := match po with
    | none => ([] : List Nat)
    | some k => if k < 0 then rest else rest.take k.toNat
  let blockData := d0 ++ c.drop (pos + d0.length)
  let payloadData := c.drop (pos + d0.length)
  let clen := max (pos + d0.length) c.length
  let f1 := flds.set "WARC-Block-Digest" ("sha1:" ++ b32encode (sha1 blockData))
  let f2 := match po with
    | some _ =>
      f1.set "WARC-Payload-Digest" ("sha1:" ++ b32encode (sha1 payloadData))
    | none => f1
  f2.set "Content-Length" (toString clen)

/-- Every stored pair with key `n` carries the value `v` (used to state
that re-setting a field to the value it already holds is a no-op). -/
def allVal (r : NameValueRecord) (n v : String) : Prop :=
  ∀ p ∈ r.pairs, p.1 = n → p.2 = v

/-! ### List helpers -/

theorem take_len_drop (l : List α) (n : Nat) :
    l.take n ++ l.drop ((l.take n).length) = l := by
  rw [List.length_take]
  rcases Nat.le_total n l.length with h | h
  · rw [Nat.min_eq_left h, List.take_append_drop]
  · rw [Nat.min_eq_right h, List.drop_length, List.take_of_length_le h,
      List.append_nil]

theorem drop_take_len (l : List α) (n : Nat) :
    l.drop ((l.take n).length) = l.drop n := by
  rw [List.length_take]
  rcases Nat.le_total n l.length with h | h
  · rw [Nat.min_eq_left h]
  · rw [Nat.min_eq_right h, List.drop_length]
    exact (List.drop_eq_nil_iff.mpr h).symm

theorem map_id_on {l : List α} {f : α → α} (h : ∀ x ∈ l, f x = x) :
    l.map f = l := by
  induction l with
  | nil => rfl
  | cons x xs ih =>
    simp only [List.map_cons, h x (by simp)]
    rw [ih (fun y hy => h y (by simp [hy]))]

/-! ### File and loop lemmas -/

theorem MFile.read_chunk (f : MFile) :
    f.read 4096 = ((f.contents.drop f.pos).take 4096,
      ⟨f.contents, f.pos + ((f.contents.drop f.pos).take 4096).length⟩) := by
  simp [MFile.read, show ¬((4096 : Int) < 0) from by decide,
    show ((4096 : Int)).toNat = 4096 from by decide]

theorem hashLoop_spec (b p : List Nat) (f : MFile) :
    hashLoop b p f = (b ++ f.contents.drop f.pos, p ++ f.contents.drop f.pos,
      (⟨f.contents, max f.pos f.contents.length⟩ : MFile)) := by
  induction b, p, f using hashLoop.induct with
  | case1 b p f f' hr =>
    have hread := hr
    rw [MFile.read_chunk, Prod.mk.injEq] at hread
    obtain ⟨hdata, hf'⟩ := hread
    have hnil : f.contents.drop f.pos = [] := by
      rcases List.take_eq_nil_iff.mp hdata with h | h
      · exact absurd h (by decide)
      · exact h
    have hle : f.contents.length ≤ f.pos := List.drop_eq_nil_iff.mp hnil
    rw [hashLoop.eq_def, hr]
    simp [hnil, Nat.max_eq_left hle, ← hf', hdata]
  | case2 b p f d ds f' hr ih =>
    have hread := hr
    rw [MFile.read_chunk, Prod.mk.injEq] at hread
    obtain ⟨hdata, hf'⟩ := hread
    have hlt : f.pos < f.contents.length := by
      by_contra hcon
      have hnil : f.contents.drop f.pos = [] :=
        List.drop_eq_nil_iff.mpr (by omega)
      rw [hnil] at hdata
      simp at hdata
    have hlen : (d :: ds).length ≤ f.contents.length - f.pos := by
      rw [← hdata, List.length_take, List.length_drop]
      omega
    rw [hashLoop.eq_def, hr]
    simp only []
    rw [ih, ← hf', ← hdata]
    have E1 : List.take 4096 (List.drop f.pos f.contents) ++
        List.drop (f.pos + (List.take 4096 (List.drop f.pos f.contents)).length)
          f.contents = List.drop f.pos f.contents := by
      rw [← List.drop_drop, take_len_drop]
    have E2 : (f.pos + (List.take 4096 (List.drop f.pos f.contents)).length) ⊔
        f.contents.length = f.pos ⊔ f.contents.length := by
      have h1 : (List.take 4096 (List.drop f.pos f.contents)).length ≤
          f.contents.length - f.pos := by
        rw [List.length_take, List.length_drop]
        omega
      omega
    rw [List.append_assoc, List.append_assoc, E1, E2]

theorem readChunksLoop_spec (f : MFile) :
    (readChunksLoop f).1.flatten = f.contents.drop f.pos ∧
      (readChunksLoop f).2 =
        (⟨f.contents, max f.pos f.contents.length⟩ : MFile) := by
  induction f using readChunksLoop.induct with
  | case1 f f' hr =>
    have hread := hr
    rw [MFile.read_chunk, Prod.mk.injEq] at hread
    obtain ⟨hdata, hf'⟩ := hread
    have hnil : f.contents.drop f.pos = [] := by
      rcases List.take_eq_nil_iff.mp hdata with h | h
      · exact absurd h (by decide)
      · exact h
    have hle : f.contents.length ≤ f.pos := List.drop_eq_nil_iff.mp hnil
    rw [readChunksLoop.eq_def, hr]
    simp [hnil, Nat.max_eq_left hle, ← hf', hdata]
  | case2 f d ds f' hr ih =>
    have hread := hr
    rw [MFile.read_chunk, Prod.mk.injEq] at hread
    obtain ⟨hdata, hf'⟩ := hread
    have hlt : f.pos < f.contents.length := by
      by_contra hcon
      have hnil : f.contents.drop f.pos = [] :=
        List.drop_eq_nil_iff.mpr (by omega)
      rw [hnil] at hdata
      simp at hdata
    rw [readChunksLoop.eq_def, hr]
    simp only [List.flatten_cons]
    obtain ⟨ih1, ih2⟩ := ih
    constructor
    · rw [ih1, ← hf', ← hdata]
      exact (by rw [← List.drop_drop, take_len_drop] :
        List.take 4096 (List.drop f.pos f.contents) ++
          List.drop (f.pos +
            (List.take 4096 (List.drop f.pos f.contents)).length) f.contents =
          List.drop f.pos f.contents)
    · rw [ih2, ← hf']
      have h1 : (List.take 4096 (List.drop f.pos f.contents)).length ≤
          f.contents.length - f.pos := by
        rw [List.length_take, List.length_drop]
        omega
      simp only [MFile.mk.injEq, true_and]
      omega

theorem compute_checksum_some (flds : NameValueRecord) (c : List Nat)
    (pos : Nat) (po : Option Int) :
    WARCRecord.compute_checksum ⟨flds, some ⟨c, pos⟩⟩ po =
      ⟨checksumFields flds c pos po, some ⟨c, pos⟩⟩ := by
  cases po with
  | none =>
    simp [WARCRecord.compute_checksum, reset_file_offset, hashLoop_spec,
      checksumFields, MFile.tell, MFile.seek]
  | some k =>
    simp [WARCRecord.compute_checksum, reset_file_offset, hashLoop_spec,
      checksumFields, MFile.tell, MFile.seek, MFile.read]

theorem set_content_length_some (flds : NameValueRecord) (c : List Nat)
    (pos : Nat) :
    WARCRecord.set_content_length ⟨flds, some ⟨c, pos⟩⟩ =
      ⟨flds.set "Content-Length" (toString c.length), some ⟨c, pos⟩⟩ := by
  simp [WARCRecord.set_content_length, reset_file_offset, MFile.seekEnd,
    MFile.tell, MFile.seek]

theorem iter_some (flds : NameValueRecord) (c : List Nat) (pos : Nat) :
    WARCRecord.iter ⟨flds, some ⟨c, pos⟩⟩ =
      Except.ok
        ([strBytes VERSION, strBytes "\r\n",
            NameValueRecord.serialize flds, strBytes "\r\n"]
            ++ (readChunksLoop ⟨c, pos⟩).1 ++ [strBytes ("\r\n" ++ "\r\n")],
          ⟨flds, some ⟨c, pos⟩⟩) := by
  simp [WARCRecord.iter, reset_file_offset, MFile.tell, MFile.seek,
    (readChunksLoop_spec ⟨c, pos⟩).2]

/-! ### Field container lemmas -/

theorem find?_map_replace (ps : List (String × String)) (n v : String) :
    (ps.map (fun p => if p.1 == n then (n, v) else p)).find?
        (fun p => p.1 == n) =
      if ps.any (fun p => p.1 == n) then some (n, v) else none := by
  induction ps with
  | nil => rfl
  | cons p ps ih =>
    rw [List.map_cons, List.any_cons]
    by_cases hp : p.1 = n
    · rw [if_pos (show (p.1 == n) = true by simp [hp]),
        List.find?_cons_of_pos _ (by simp)]
      simp [hp]
    · rw [if_neg (show ¬(p.1 == n) = true by simp [hp]),
        List.find?_cons_of_neg _ (by simp [hp]), ih,
        show (p.1 == n) = false by simp [hp], Bool.false_or]

theorem find?_map_preserve (ps : List (String × String)) (m n v : String)
    (hmn : m ≠ n) :
    (ps.map (fun p => if p.1 == m then (m, v) else p)).find?
        (fun p => p.1 == n) = ps.find? (fun p => p.1 == n) := by
  induction ps with
  | nil => rfl
  | cons p ps ih =>
    rw [List.map_cons]
    by_cases hp : p.1 = m
    · rw [if_pos (show (p.1 == m) = true by simp [hp]),
        List.find?_cons_of_neg _ (by simp [hmn]),
        List.find?_cons_of_neg _ (by simp [hp, hmn]), ih]
    · rw [if_neg (show ¬(p.1 == m) = true by simp [hp])]
      by_cases hn : p.1 = n
      · rw [List.find?_cons_of_pos _ (by simp [hn]),
          List.find?_cons_of_pos _ (by simp [hn])]
      · rw [List.find?_cons_of_neg _ (by simp [hn]),
          List.find?_cons_of_neg _ (by simp [hn]), ih]

theorem any_map_replace (ps : List (String × String)) (m n v : String) :
    (ps.map (fun p => if p.1 == m then (m, v) else p)).any
        (fun p => p.1 == n) = ps.any (fun p => p.1 == n) := by
  induction ps with
  | nil => rfl
  | cons p ps ih =>
    rw [List.map_cons, List.any_cons, List.any_cons, ih]
    by_cases hp : p.1 = m
    · rw [if_pos (show (p.1 == m) = true by simp [hp])]
      simp [hp]
    · rw [if_neg (show ¬(p.1 == m) = true by simp [hp])]

theorem NameValueRecord.get_set_self (r : NameValueRecord) (n v : String) :
    (r.set n v).get? n = some v := by
  unfold NameValueRecord.set NameValueRecord.get?
  by_cases h : r.pairs.any (fun p => p.1 == normalizeName n)
  · rw [if_pos h]
    simp only
    rw [find?_map_replace, if_pos h]
    rfl
  · rw [if_neg h]
    simp only
    rw [List.find?_append]
    rw [List.find?_eq_none.mpr ?_]
    · simp [List.find?]
    · intro p hp
      intro hcon
      exact h (List.any_eq_true.mpr ⟨p, hp, hcon⟩)

theorem NameValueRecord.get_set_other (r : NameValueRecord) (m n v : String)
    (hmn : normalizeName m ≠ normalizeName n) :
    (r.set m v).get? n = r.get? n := by
  unfold NameValueRecord.set NameValueRecord.get?
  by_cases h : r.pairs.any (fun p => p.1 == normalizeName m)
  · rw [if_pos h]
    simp only
    rw [find?_map_preserve _ _ _ _ hmn]
  · rw [if_neg h]
    simp only
    rw [List.find?_append]
    have hnone : List.find? (fun p => p.1 == normalizeName n)
        [(normalizeName m, v)] = none := by
      rw [List.find?_cons_of_neg _ (by simp [hmn]), List.find?_nil]
    rw [hnone, Option.or_none]

theorem NameValueRecord.contains_set_self (r : NameValueRecord) (n v : String) :
    (r.set n v).contains n = true := by
  unfold NameValueRecord.set NameValueRecord.contains
  by_cases h : r.pairs.any (fun p => p.1 == normalizeName n)
  · rw [if_pos h]
    simp only
    rw [any_map_replace]
    exact h
  · rw [if_neg h]
    simp [List.any_append]

theorem NameValueRecord.contains_set_other (r : NameValueRecord)
    (m n v : String) (hmn : normalizeName m ≠ normalizeName n) :
    (r.set m v).contains n = r.contains n := by
  unfold NameValueRecord.set NameValueRecord.contains
  by_cases h : r.pairs.any (fun p => p.1 == normalizeName m)
  · rw [if_pos h]
    simp only
    rw [any_map_replace]
  · rw [if_neg h]
    simp [List.any_append, hmn]

theorem allVal_set_self (r : NameValueRecord) (n v : String) :
    allVal (r.set n v) (normalizeName n) v := by
  unfold allVal NameValueRecord.set
  by_cases h : r.pairs.any (fun p => p.1 == normalizeName n)
  · rw [if_pos h]
    intro p hp hk
    simp only [List.mem_map] at hp
    obtain ⟨q, hq, hfq⟩ := hp
    by_cases hq1 : q.1 = normalizeName n
    · rw [if_pos (by simp [hq1])] at hfq
      rw [← hfq]
    · rw [if_neg (by simp [hq1])] at hfq
      rw [← hfq] at hk
      exact absurd hk hq1
  · rw [if_neg h]
    intro p hp hk
    simp only [List.mem_append, List.mem_singleton] at hp
    rcases hp with hp | hp
    · exact absurd (List.any_eq_true.mpr ⟨p, hp, by simp [hk]⟩) h
    · rw [hp]

theorem allVal_set_other (r : NameValueRecord) (m n v w : String)
    (hmn : normalizeName m ≠ n) (h : allVal r n v) :
    allVal (r.set m w) n v := by
  unfold allVal NameValueRecord.set
  by_cases hc : r.pairs.any (fun p => p.1 == normalizeName m)
  · rw [if_pos hc]
    intro p hp hk
    simp only [List.mem_map] at hp
    obtain ⟨q, hq, hfq⟩ := hp
    by_cases hq1 : q.1 = normalizeName m
    · rw [if_pos (by simp [hq1])] at hfq
      rw [← hfq] at hk
      exact absurd hk.symm (fun hcon => hmn hcon.symm)
    · rw [if_neg (by simp [hq1])] at hfq
      rw [← hfq] at hk ⊢
      exact h q hq hk
  · rw [if_neg hc]
    intro p hp hk
    simp only [List.mem_append, List.mem_singleton] at hp
    rcases hp with hp | hp
    · exact h p hp hk
    · rw [hp] at hk
      exact absurd hk hmn

theorem set_stable (r : NameValueRecord) (n v : String)
    (hc : r.contains n = true) (hv : allVal r (normalizeName n) v) :
    r.set n v = r := by
  unfold NameValueRecord.contains at hc
  unfold NameValueRecord.set
  rw [if_pos hc]
  cases r with
  | mk ps =>
    simp only [NameValueRecord.mk.injEq]
    apply map_id_on
    intro p hp
    by_cases hk : p.1 = normalizeName n
    · rw [if_pos (by simp [hk])]
      have hval : p.2 = v := hv p hp hk
      cases p
      simp only at hk hval
      rw [hk, hval]
    · rw [if_neg (by simp [hk])]

/-! ### Normal forms of the checksum fields -/

theorem checksumFields_some_nat (flds : NameValueRecord) (b : List Nat)
    (k : Nat) :
    checksumFields flds b 0 (some (k : Int)) =
      ((flds.set "WARC-Block-Digest"
          ("sha1:" ++ b32encode (sha1 b))).set "WARC-Payload-Digest"
          ("sha1:" ++ b32encode (sha1 (b.drop k)))).set "Content-Length"
        (toString b.length) := by
  have h0 : ¬((k : Int) < 0) := not_lt.mpr (Int.natCast_nonneg k)
  unfold checksumFields
  simp only [List.drop_zero, h0, if_false, Int.toNat_ofNat, Nat.zero_add,
    take_len_drop, drop_take_len, List.take_append_drop]
  have hmax : max (b.take k).length b.length = b.length := by
    rw [List.length_take]
    omega
  rw [hmax]

theorem checksumFields_none (flds : NameValueRecord) (b : List Nat) :
    checksumFields flds b 0 none =
      (flds.set "WARC-Block-Digest"
          ("sha1:" ++ b32encode (sha1 b))).set "Content-Length"
        (toString b.length) := by
  unfold checksumFields
  simp only [List.drop_zero, List.length_nil, Nat.zero_add, List.nil_append,
    Nat.max_eq_right (Nat.zero_le b.length)]

theorem get_BD_some_nat (flds : NameValueRecord) (b : List Nat) (k : Nat) :
    (checksumFields flds b 0 (some (k : Int))).get? "WARC-Block-Digest" =
      some ("sha1:" ++ b32encode (sha1 b)) := by
  rw [checksumFields_some_nat,
    NameValueRecord.get_set_other _ _ _ _ (by decide),
    NameValueRecord.get_set_other _ _ _ _ (by decide),
    NameValueRecord.get_set_self]

theorem get_PD_some_nat (flds : NameValueRecord) (b : List Nat) (k : Nat) :
    (checksumFields flds b 0 (some (k : Int))).get? "WARC-Payload-Digest" =
      some ("sha1:" ++ b32encode (sha1 (b.drop k))) := by
  rw [checksumFields_some_nat,
    NameValueRecord.get_set_other _ _ _ _ (by decide),
    NameValueRecord.get_set_self]

theorem get_BD_none (flds : NameValueRecord) (b : List Nat) :
    (checksumFields flds b 0 none).get? "WARC-Block-Digest" =
      some ("sha1:" ++ b32encode (sha1 b)) := by
  rw [checksumFields_none,
    NameValueRecord.get_set_other _ _ _ _ (by decide),
    NameValueRecord.get_set_self]

theorem toBytesBE_length (n x : Nat) : (toBytesBE n x).length = n := by
  induction n generalizing x with
  | zero => rfl
  | succ n ih => simp [toBytesBE, ih]

theorem sha1_length (m : List Nat) : (sha1 m).length = 20 := by
  simp [sha1, toBytesBE_length]

/-! ### Claims -/

set_option maxRecDepth 1000000

/-- Claim C1: for every block of length `L` and every payload offset
`0 ≤ k ≤ L`, after `compute_checksum(payload_offset=k)` the
`WARC-Payload-Digest` field is the sha1-prefixed Base32 encoding of the
SHA-1 digest of block bytes `[k:L)` alone, and `WARC-Block-Digest` is the
sha1-prefixed Base32 encoding of the SHA-1 digest of the full block
`[0:L)`, independent of `k` (so `k = 0` digests the entire block as the
payload). -/
theorem claim_C1_payload_split (b : List Nat) (flds : NameValueRecord)
    (k : Nat) (hk : k ≤ b.length) :
    (WARCRecord.compute_checksum ⟨flds, some ⟨b, 0⟩⟩
        (some (k : Int))).fields.get? "WARC-Payload-Digest" =
      some ("sha1:" ++ b32encode (sha1 (b.drop k))) ∧
    (WARCRecord.compute_checksum ⟨flds, some ⟨b, 0⟩⟩
        (some (k : Int))).fields.get? "WARC-Block-Digest" =
      some ("sha1:" ++ b32encode (sha1 b)) := by
  rw [compute_checksum_some]
  exact ⟨get_PD_some_nat flds b k, get_BD_some_nat flds b k⟩

/-- Witness for C1 at the block `[10, 20, 30]` and offset `k = 1`. -/
theorem claim_C1_payload_split_witness :
    (1 ≤ ([10, 20, 30] : List Nat).length) ∧
    ((WARCRecord.compute_checksum ⟨⟨[]⟩, some ⟨[10, 20, 30], 0⟩⟩
        (some ((1 : Nat) : Int))).fields.get? "WARC-Payload-Digest" =
      some ("sha1:" ++ b32encode (sha1 (([10, 20, 30] : List Nat).drop 1))) ∧
    (WARCRecord.compute_checksum ⟨⟨[]⟩, some ⟨[10, 20, 30], 0⟩⟩
        (some ((1 : Nat) : Int))).fields.get? "WARC-Block-Digest" =
      some ("sha1:" ++ b32encode (sha1 [10, 20, 30]))) :=
  ⟨by decide, claim_C1_payload_split [10, 20, 30] ⟨[]⟩ 1 (by decide)⟩

/-- Claim C2: for every record with a block attached, the serialized byte
sequence is exactly the version line `WARC/1.0`, CRLF, the field lines in
insertion order (`Name: Value` CRLF each, names normalized per the
override set as the stored keys are), CRLF, the raw block bytes, then
CRLF CRLF; concatenating the yielded chunks gives this byte-exact
layout. -/
theorem claim_C2_serialized_layout (b : List Nat) (flds : NameValueRecord) :
    ∃ chunks,
      WARCRecord.iter ⟨flds, some ⟨b, 0⟩⟩ =
        Except.ok (chunks, ⟨flds, some ⟨b, 0⟩⟩) ∧
      chunks.flatten =
        strBytes "WARC/1.0" ++ strBytes "\r\n" ++
          (flds.pairs.map
            (fun p => strBytes (p.1 ++ ": " ++ p.2 ++ "\r\n"))).flatten ++
          strBytes "\r\n" ++ b ++ strBytes ("\r\n" ++ "\r\n") := by
  refine ⟨_, iter_some flds b 0, ?_⟩
  have hloop := (readChunksLoop_spec ⟨b, 0⟩).1
  simp only [List.flatten_append, List.flatten_cons, List.flatten_nil,
    List.append_nil, hloop, List.drop_zero, NameValueRecord.serialize,
    VERSION, List.append_assoc]

/-- Claim C6: for every record with no block attached, `compute_checksum`
(with or without a payload offset) and `set_content_length` both set
`Content-Length` to the string `"0"`, touch no other field (in
particular set no digest fields), and return normally (they are total
functions of the record). -/
theorem claim_C6_no_block (flds : NameValueRecord) (po : Option Int) :
    WARCRecord.compute_checksum ⟨flds, none⟩ po =
      ⟨flds.set "Content-Length" "0", none⟩ ∧
    WARCRecord.set_content_length ⟨flds, none⟩ =
      ⟨flds.set "Content-Length" "0", none⟩ ∧
    (flds.set "Content-Length" "0").get? "Content-Length" = some "0" := by
  refine ⟨?_, rfl, NameValueRecord.get_set_self flds _ _⟩
  cases po <;> rfl

/-- Claim C7: every digest field written by `compute_checksum` is the
string `sha1:` followed by the padded RFC 4648 Base32 encoding of the raw
20-byte SHA-1 digest; the digest of the empty byte string encodes to the
fixed 32-character value `3I42H3S6NNFQ2MSVX7XZKYAYSCX5QBYJ`. -/
theorem claim_C7_digest_encoding (b : List Nat) (flds : NameValueRecord)
    (k : Nat) :
    (WARCRecord.compute_checksum ⟨flds, some ⟨b, 0⟩⟩ none).fields.get?
        "WARC-Block-Digest" = some ("sha1:" ++ b32encode (sha1 b)) ∧
    (WARCRecord.compute_checksum ⟨flds, some ⟨b, 0⟩⟩
        (some (k : Int))).fields.get? "WARC-Payload-Digest" =
      some ("sha1:" ++ b32encode (sha1 (b.drop k))) ∧
    (∀ m : List Nat, (sha1 m).length = 20) ∧
    b32encode (sha1 []) = "3I42H3S6NNFQ2MSVX7XZKYAYSCX5QBYJ" ∧
    (b32encode (sha1 [])).length = 32 := by
  refine ⟨?_, ?_, sha1_length, by decide, by decide⟩
  · rw [compute_checksum_some]
    exact get_BD_none flds b
  · rw [compute_checksum_some]
    exact get_PD_some_nat flds b k

/-- Claim C10: for every record with no block attached, iterating the
serialization fails with an error (the scoped cursor save/restore is
entered on the missing block, whose `tell` does not exist) instead of
producing a record with an empty body; serialization thus requires an
attached block. -/
theorem claim_C10_iter_no_block (flds : NameValueRecord) :
    ∃ msg, WARCRecord.iter ⟨flds, none⟩ = Except.error msg :=
  ⟨_, rfl⟩

theorem checksumFields_empty_some (flds : NameValueRecord) (k : Int) :
    checksumFields flds [] 0 (some k) =
      ((flds.set "WARC-Block-Digest"
          ("sha1:" ++ b32encode (sha1 []))).set "WARC-Payload-Digest"
          ("sha1:" ++ b32encode (sha1 []))).set "Content-Length" "0" := by
  simp only [checksumFields, List.drop_nil, List.take_nil, ite_self,
    List.length_nil, Nat.zero_add, List.nil_append, Nat.max_self]
  rfl

theorem checksumFields_empty_none (flds : NameValueRecord) :
    checksumFields flds [] 0 none =
      (flds.set "WARC-Block-Digest"
          ("sha1:" ++ b32encode (sha1 []))).set "Content-Length" "0" := by
  rw [checksumFields_none]
  rfl

/-- Counterexample to claim C3: on an attached block of length 0, the
code still sets `WARC-Block-Digest` (an attached file object is not the
absent block that the digest-skipping branch tests for). -/
theorem claim_C3_counterexample :
    (WARCRecord.compute_checksum ⟨⟨[]⟩, some ⟨[], 0⟩⟩ none).fields.contains
        "WARC-Block-Digest" = true := by
  rw [compute_checksum_some]
  decide

/-- Claim C3 as amended: for an attached block of length 0,
`Content-Length` becomes `"0"`, but `WARC-Block-Digest` is set to the
digest of the empty byte string, and `WARC-Payload-Digest` is likewise
set to the digest of the empty byte string exactly when a payload offset
is supplied (with no offset it is left untouched). -/
theorem claim_C3_empty_block_amended (flds : NameValueRecord)
    (po : Option Int) :
    (WARCRecord.compute_checksum ⟨flds, some ⟨[], 0⟩⟩ po).fields.get?
        "Content-Length" = some "0" ∧
    (WARCRecord.compute_checksum ⟨flds, some ⟨[], 0⟩⟩ po).fields.get?
        "WARC-Block-Digest" = some ("sha1:" ++ b32encode (sha1 [])) ∧
    (∀ k : Int, (WARCRecord.compute_checksum ⟨flds, some ⟨[], 0⟩⟩
        (some k)).fields.get? "WARC-Payload-Digest" =
      some ("sha1:" ++ b32encode (sha1 []))) ∧
    (WARCRecord.compute_checksum ⟨flds, some ⟨[], 0⟩⟩ none).fields.get?
        "WARC-Payload-Digest" = flds.get? "WARC-Payload-Digest" := by
  refine ⟨?_, ?_, ?_, ?_⟩
  · rw [compute_checksum_some]
    cases po with
    | none =>
      rw [show (WARCRecord.mk (checksumFields flds [] 0 none)
          (some ⟨[], 0⟩)).fields = checksumFields flds [] 0 none from rfl,
        checksumFields_empty_none, NameValueRecord.get_set_self]
    | some k =>
      rw [show (WARCRecord.mk (checksumFields flds [] 0 (some k))
          (some ⟨[], 0⟩)).fields = checksumFields flds [] 0 (some k) from rfl,
        checksumFields_empty_some, NameValueRecord.get_set_self]
  · rw [compute_checksum_some]
    cases po with
    | none =>
      rw [show (WARCRecord.mk (checksumFields flds [] 0 none)
          (some ⟨[], 0⟩)).fields = checksumFields flds [] 0 none from rfl,
        checksumFields_empty_none,
        NameValueRecord.get_set_other _ _ _ _ (by decide),
        NameValueRecord.get_set_self]
    | some k =>
      rw [show (WARCRecord.mk (checksumFields flds [] 0 (some k))
          (some ⟨[], 0⟩)).fields = checksumFields flds [] 0 (some k) from rfl,
        checksumFields_empty_some,
        NameValueRecord.get_set_other _ _ _ _ (by decide),
        NameValueRecord.get_set_other _ _ _ _ (by decide),
        NameValueRecord.get_set_self]
  · intro k
    rw [compute_checksum_some,
      show (WARCRecord.mk (checksumFields flds [] 0 (some k))
          (some ⟨[], 0⟩)).fields = checksumFields flds [] 0 (some k) from rfl,
      checksumFields_empty_some,
      NameValueRecord.get_set_other _ _ _ _ (by decide),
      NameValueRecord.get_set_self]
  · rw [compute_checksum_some,
      show (WARCRecord.mk (checksumFields flds [] 0 none)
          (some ⟨[], 0⟩)).fields = checksumFields flds [] 0 none from rfl,
      checksumFields_empty_none,
      NameValueRecord.get_set_other _ _ _ _ (by decide),
      NameValueRecord.get_set_other _ _ _ _ (by decide)]

theorem contains_BD_checksum (flds : NameValueRecord) (c : List Nat)
    (pos : Nat) (po : Option Int) :
    (checksumFields flds c pos po).contains "WARC-Block-Digest" = true := by
  cases po with
  | none =>
    simp only [checksumFields]
    rw [NameValueRecord.contains_set_other _ _ _ _ (by decide),
      NameValueRecord.contains_set_self]
  | some k =>
    simp only [checksumFields]
    rw [NameValueRecord.contains_set_other _ _ _ _ (by decide),
      NameValueRecord.contains_set_other _ _ _ _ (by decide),
      NameValueRecord.contains_set_self]

theorem contains_PD_checksum_some (flds : NameValueRecord) (c : List Nat)
    (pos : Nat) (k : Int) :
    (checksumFields flds c pos (some k)).contains "WARC-Payload-Digest" =
      true := by
  simp only [checksumFields]
  rw [NameValueRecord.contains_set_other _ _ _ _ (by decide),
    NameValueRecord.contains_set_self]

theorem contains_PD_checksum_none (flds : NameValueRecord) (c : List Nat)
    (pos : Nat) :
    (checksumFields flds c pos none).contains "WARC-Payload-Digest" =
      flds.contains "WARC-Payload-Digest" := by
  simp only [checksumFields]
  rw [NameValueRecord.contains_set_other _ _ _ _ (by decide),
    NameValueRecord.contains_set_other _ _ _ _ (by decide)]

/-- Counterexample to claim C4: a record whose fields already hold a
`WARC-Block-Digest` entry but with no block attached still has the field
present after `compute_checksum`, so presence is not equivalent to a
block being attached. -/
theorem claim_C4_counterexample :
    (WARCRecord.compute_checksum
        ⟨NameValueRecord.set ⟨[]⟩ "WARC-Block-Digest" "x", none⟩
        none).fields.contains "WARC-Block-Digest" = true ∧
    (WARCRecord.compute_checksum
        ⟨NameValueRecord.set ⟨[]⟩ "WARC-Block-Digest" "x", none⟩
        none).block_file = none :=
  ⟨by decide, rfl⟩

/-- Claim C4 as amended: provided the fields did not already contain
`WARC-Block-Digest` or `WARC-Payload-Digest` before the call, after
`compute_checksum` the block digest is present iff a block is attached,
and the payload digest is present iff a block is attached and a
payload-offset argument was supplied. -/
theorem claim_C4_presence_amended (flds : NameValueRecord)
    (bf : Option MFile) (po : Option Int)
    (h1 : flds.contains "WARC-Block-Digest" = false)
    (h2 : flds.contains "WARC-Payload-Digest" = false) :
    (WARCRecord.compute_checksum ⟨flds, bf⟩ po).fields.contains
        "WARC-Block-Digest" = bf.isSome ∧
    (WARCRecord.compute_checksum ⟨flds, bf⟩ po).fields.contains
        "WARC-Payload-Digest" = (bf.isSome && po.isSome) := by
  cases bf with
  | none =>
    have hred : WARCRecord.compute_checksum ⟨flds, none⟩ po =
        ⟨flds.set "Content-Length" "0", none⟩ := by cases po <;> rfl
    rw [hred]
    constructor
    · rw [show (WARCRecord.mk (flds.set "Content-Length" "0") none).fields =
          flds.set "Content-Length" "0" from rfl,
        NameValueRecord.contains_set_other _ _ _ _ (by decide), h1]
      rfl
    · rw [show (WARCRecord.mk (flds.set "Content-Length" "0") none).fields =
          flds.set "Content-Length" "0" from rfl,
        NameValueRecord.contains_set_other _ _ _ _ (by decide), h2]
      rfl
  | some f =>
    obtain ⟨c, pos⟩ := f
    rw [compute_checksum_some]
    refine ⟨contains_BD_checksum flds c pos po, ?_⟩
    cases po with
    | none =>
      show (checksumFields flds c pos none).contains "WARC-Payload-Digest" =
        ((some (⟨c, pos⟩ : MFile)).isSome && (none : Option Int).isSome)
      rw [contains_PD_checksum_none, h2]
      rfl
    | some k =>
      show (checksumFields flds c pos (some k)).contains
          "WARC-Payload-Digest" =
        ((some (⟨c, pos⟩ : MFile)).isSome && (some k).isSome)
      rw [contains_PD_checksum_some]
      rfl

/-- Witness for C4 at a one-byte block with payload offset 0 and
initially empty fields. -/
theorem claim_C4_presence_amended_witness :
    ((⟨[]⟩ : NameValueRecord).contains "WARC-Block-Digest" = false) ∧
    ((⟨[]⟩ : NameValueRecord).contains "WARC-Payload-Digest" = false) ∧
    ((WARCRecord.compute_checksum ⟨⟨[]⟩, some ⟨[7], 0⟩⟩
          (some 0)).fields.contains "WARC-Block-Digest" =
        (some (⟨[7], 0⟩ : MFile)).isSome ∧
      (WARCRecord.compute_checksum ⟨⟨[]⟩, some ⟨[7], 0⟩⟩
          (some 0)).fields.contains "WARC-Payload-Digest" =
        ((some (⟨[7], 0⟩ : MFile)).isSome && (some (0 : Int)).isSome)) :=
  ⟨by decide, by decide,
    claim_C4_presence_amended ⟨[]⟩ (some ⟨[7], 0⟩) (some 0)
      (by decide) (by decide)⟩

/-- Claim C5: on a record with a block attached, `set_content_length`,
`compute_checksum` (any payload offset) and serialization leave the
read cursor and contents of the block exactly as before the call (the
operations mutate only record fields); moreover the scoped save/restore
construct restores the cursor on every exit path, including when the body
fails mid-read. -/
theorem claim_C5_cursor_restored (flds : NameValueRecord) (f : MFile)
    (po : Option Int) :
    (WARCRecord.set_content_length ⟨flds, some f⟩).block_file = some f ∧
    (WARCRecord.compute_checksum ⟨flds, some f⟩ po).block_file = some f ∧
    (∃ chunks, WARCRecord.iter ⟨flds, some f⟩ =
      Except.ok (chunks, ⟨flds, some f⟩)) ∧
    (∀ (body : MFile → Except (String × MFile) (List Nat × MFile))
        (g : MFile),
      (exitFile (reset_file_offset_exc g body)).pos = g.pos) := by
  obtain ⟨c, pos⟩ := f
  refine ⟨?_, ?_, ⟨_, iter_some flds c pos⟩, ?_⟩
  · rw [set_content_length_some]
  · rw [compute_checksum_some]
  · intro body g
    cases hb : body g with
    | ok a =>
      obtain ⟨x, ff⟩ := a
      simp [reset_file_offset_exc, exitFile, hb, MFile.seek, MFile.tell]
    | error e =>
      obtain ⟨msg, ff⟩ := e
      simp [reset_file_offset_exc, exitFile, hb, MFile.seek, MFile.tell]

/-- Claim C8 evaluated at the failing input: with block `[97, 98, 99]`
(`b"abc"`) and `payload_offset = -1`, `compute_checksum` completes
normally — the negative size makes the first read consume the whole
block — and stores a `WARC-Payload-Digest` over the empty remainder
together with `Content-Length "3"`, instead of failing fast. -/
theorem claim_C8_negative_offset_completes :
    (WARCRecord.compute_checksum ⟨⟨[]⟩, some ⟨[97, 98, 99], 0⟩⟩
        (some (-1))).fields.get? "WARC-Payload-Digest" =
      some ("sha1:" ++ b32encode (sha1 [])) ∧
    (WARCRecord.compute_checksum ⟨⟨[]⟩, some ⟨[97, 98, 99], 0⟩⟩
        (some (-1))).fields.get? "WARC-Block-Digest" =
      some ("sha1:" ++ b32encode (sha1 [97, 98, 99])) ∧
    (WARCRecord.compute_checksum ⟨⟨[]⟩, some ⟨[97, 98, 99], 0⟩⟩
        (some (-1))).fields.get? "Content-Length" = some "3" := by
  rw [compute_checksum_some]
  exact ⟨by decide, by decide, by decide⟩

theorem set2_stable (flds : NameValueRecord) (x z : String) :
    (((flds.set "WARC-Block-Digest" x).set "Content-Length" z).set
        "WARC-Block-Digest" x).set "Content-Length" z =
      (flds.set "WARC-Block-Digest" x).set "Content-Length" z := by
  have hBD : ((flds.set "WARC-Block-Digest" x).set "Content-Length" z).set
      "WARC-Block-Digest" x =
      (flds.set "WARC-Block-Digest" x).set "Content-Length" z := by
    apply set_stable
    · rw [NameValueRecord.contains_set_other _ _ _ _ (by decide),
        NameValueRecord.contains_set_self]
    · exact allVal_set_other (flds.set "WARC-Block-Digest" x)
        "Content-Length" (normalizeName "WARC-Block-Digest") x z (by decide)
        (allVal_set_self flds "WARC-Block-Digest" x)
  rw [hBD]
  exact set_stable _ _ _ (NameValueRecord.contains_set_self _ _ _)
    (allVal_set_self _ _ _)

theorem set3_stable (flds : NameValueRecord) (x y z : String) :
    (((((flds.set "WARC-Block-Digest" x).set "WARC-Payload-Digest" y).set
        "Content-Length" z).set "WARC-Block-Digest" x).set
        "WARC-Payload-Digest" y).set "Content-Length" z =
      ((flds.set "WARC-Block-Digest" x).set "WARC-Payload-Digest" y).set
        "Content-Length" z := by
  have hBD : (((flds.set "WARC-Block-Digest" x).set "WARC-Payload-Digest"
      y).set "Content-Length" z).set "WARC-Block-Digest" x =
      ((flds.set "WARC-Block-Digest" x).set "WARC-Payload-Digest" y).set
        "Content-Length" z := by
    apply set_stable
    · rw [NameValueRecord.contains_set_other _ _ _ _ (by decide),
        NameValueRecord.contains_set_other _ _ _ _ (by decide),
        NameValueRecord.contains_set_self]
    · exact allVal_set_other _ "Content-Length"
        (normalizeName "WARC-Block-Digest") x z (by decide)
        (allVal_set_other _ "WARC-Payload-Digest"
          (normalizeName "WARC-Block-Digest") x y (by decide)
          (allVal_set_self flds "WARC-Block-Digest" x))
  rw [hBD]
  have hPD : (((flds.set "WARC-Block-Digest" x).set "WARC-Payload-Digest"
      y).set "Content-Length" z).set "WARC-Payload-Digest" y =
      ((flds.set "WARC-Block-Digest" x).set "WARC-Payload-Digest" y).set
        "Content-Length" z := by
    apply set_stable
    · rw [NameValueRecord.contains_set_other _ _ _ _ (by decide),
        NameValueRecord.contains_set_self]
    · exact allVal_set_other _ "Content-Length"
        (normalizeName "WARC-Payload-Digest") y z (by decide)
        (allVal_set_self (flds.set "WARC-Block-Digest" x)
          "WARC-Payload-Digest" y)
  rw [hPD]
  exact set_stable _ _ _ (NameValueRecord.contains_set_self _ _ _)
    (allVal_set_self _ _ _)

theorem checksumFields_idem (flds : NameValueRecord) (c : List Nat)
    (pos : Nat) (po : Option Int) :
    checksumFields (checksumFields flds c pos po) c pos po =
      checksumFields flds c pos po := by
  cases po with
  | none =>
    simp only [checksumFields]
    exact set2_stable flds _ _
  | some k =>
    simp only [checksumFields]
    exact set3_stable flds _ _ _

/-- Claim C9: `compute_checksum` is idempotent — on an unchanged block,
calling it twice with the same payload-offset argument leaves the whole
record (field mapping and block) in the same state as calling it once,
storing identical values. -/
theorem claim_C9_idempotent (flds : NameValueRecord) (bf : Option MFile)
    (po : Option Int) :
    WARCRecord.compute_checksum
        (WARCRecord.compute_checksum ⟨flds, bf⟩ po) po =
      WARCRecord.compute_checksum ⟨flds, bf⟩ po := by
  cases bf with
  | none =>
    have hred : ∀ g : NameValueRecord,
        WARCRecord.compute_checksum ⟨g, none⟩ po =
          ⟨g.set "Content-Length" "0", none⟩ := fun g => by cases po <;> rfl
    rw [hred, hred]
    have hstable : (flds.set "Content-Length" "0").set "Content-Length" "0" =
        flds.set "Content-Length" "0" :=
      set_stable _ _ _ (NameValueRecord.contains_set_self _ _ _)
        (allVal_set_self _ _ _)
    rw [hstable]
  | some f =>
    obtain ⟨c, pos⟩ := f
    rw [compute_checksum_some, compute_checksum_some, checksumFields_idem]
